import Mathlib

/-!
Verification of the ToDo-Score-App core (scoring engine and versioned
key-value persistence layer) against its natural-language specification.

The TypeScript sources are shallowly embedded:
* JavaScript objects used as string-keyed maps (`DayLog.checks`, the
  per-month day-log maps, the migration bucket) become association lists
  `List (String × β)` with first-match lookup, in-place update and
  insertion-order preservation, exactly as JavaScript objects with
  non-numeric string keys behave.
* JavaScript numbers are modelled as exact rationals `ℚ` (the spec's
  numeric assertions are stated "within floating tolerance"; the model
  computes the ideal values).
* `localStorage` becomes an association list from key strings to a
  `StoredVal`, where a stored JSON blob is kept in parsed form (JSON
  stringify/parse round-trips these structures) and `StoredVal.raw`
  stands for a blob that does not parse as the expected structure.
* `Date.now()` becomes an explicit `now : Nat` argument.
-/

namespace ToDoScore

/-- Association-list lookup, modelling a JavaScript object property read
(`m[k]`); JavaScript objects never hold duplicate keys, so first-match
lookup agrees with object semantics. -/
def alookup {β : Type} : List (String × β) → String → Option β
  | [], _ => none
  | (k', v) :: rest, k => if k' = k then some v else alookup rest k

/-- Association-list update, modelling a JavaScript object property write
(`m[k] = v`): an existing key keeps its position, a new key is appended
(insertion order), as JavaScript objects with string keys behave. -/
def objSet {β : Type} : List (String × β) → String → β → List (String × β)
  | [], k, v => [(k, v)]
  | (k', v') :: rest, k, v =>
    if k' = k then (k, v) :: rest else (k', v') :: objSet rest k v

/-- Association-list deletion, modelling `delete m[k]` (and
`localStorage.removeItem`): removes the entry for `k`, keeping the order of
the remaining entries. -/
def aerase {β : Type} : List (String × β) → String → List (String × β)
  | [], _ => []
  | (k', v) :: rest, k =>
    if k' = k then aerase rest k else (k', v) :: aerase rest k

/-- The keys of an association list are pairwise distinct (always true for
maps that came from JavaScript objects / JSON parsing). -/
def keysND {β : Type} (m : List (String × β)) : Prop :=
  (m.map Prod.fst).Nodup

theorem alookup_objSet_self {β : Type} (m : List (String × β)) (k : String) (v : β) :
    alookup (objSet m k v) k = some v := by
  induction m with
  | nil => simp [objSet, alookup]
  | cons p rest ih =>
    by_cases h : p.1 = k
    · simp [objSet, h, alookup]
    · simp [objSet, h, alookup, ih]

theorem alookup_objSet_ne {β : Type} (m : List (String × β)) (k k' : String) (v : β)
    (h : k ≠ k') : alookup (objSet m k v) k' = alookup m k' := by
  induction m with
  | nil => simp [objSet, alookup, h]
  | cons p rest ih =>
    by_cases hp : p.1 = k
    · simp [objSet, hp, alookup, h]
    · simp [objSet, hp, alookup, ih]

theorem alookup_aerase_self {β : Type} (m : List (String × β)) (k : String) :
    alookup (aerase m k) k = none := by
  induction m with
  | nil => simp [aerase, alookup]
  | cons p rest ih =>
    by_cases hp : p.1 = k
    · simp [aerase, hp, ih]
    · simp [aerase, hp, alookup, ih]

theorem alookup_aerase_ne {β : Type} (m : List (String × β)) (k k' : String)
    (h : k ≠ k') : alookup (aerase m k) k' = alookup m k' := by
  induction m with
  | nil => simp [aerase]
  | cons p rest ih =>
    obtain ⟨k0, v0⟩ := p
    by_cases hp : k0 = k
    · subst hp
      simp [aerase, alookup, ih, h]
    · simp [aerase, hp, alookup, ih]

/-- Task record (`src/domain/types.ts`): `points` is a JavaScript number,
modelled as an exact rational. -/
structure Task where
  id : String
  title : String
  points : ℚ
  isCore : Bool
  isActive : Bool
deriving DecidableEq, Repr

/-- Day log record (`src/domain/types.ts`): optional fields are `Option`s
(`undefined` = `none`), `checks` is a string-keyed object. -/
structure DayLog where
  date : String
  checks : List (String × Bool)
  note : Option String
  excludeFromStats : Option Bool
  createdAt : Option Nat
  updatedAt : Option Nat
deriving DecidableEq, Repr

/-- The rank labels of `src/domain/scoring.ts`. -/
inductive Rank
  | A
  | S
  | SS
  | SSS
deriving DecidableEq, Repr

/-- Result of the scoring function (`ScoreResult` in
`src/domain/scoring.ts`); `rank` is `some` only when `showRank`. -/
structure ScoreResult where
  rawScore : ℚ
  coreTotal : Nat
  coreDone : Nat
  coreIncompleteCount : Nat
  showRank : Bool
  rank : Option Rank
deriving DecidableEq, Repr

/-- `activeTasks` from `src/domain/scoring.ts`. -/
def activeTasks (tasks : List Task) : List Task :=
  tasks.filter (fun t => t.isActive)

/-- `coreTasks` from `src/domain/scoring.ts`. -/
def coreTasks (tasks : List Task) : List Task :=
  tasks.filter (fun t => t.isActive && t.isCore)

/-- `bonusTasks` from `src/domain/scoring.ts`. -/
def bonusTasks (tasks : List Task) : List Task :=
  tasks.filter (fun t => t.isActive && !t.isCore)

/-- Truthiness of `checks[t.id]` (absent key reads as `undefined`, which is
falsy, and `false` is falsy). -/
def checkedIn (checks : List (String × Bool)) (id : String) : Bool :=
  (alookup checks id).getD false

/-- `countDone` from `src/domain/scoring.ts`. -/
def countDone (tasks : List Task) (checks : List (String × Bool)) : Nat :=
  tasks.countP (fun t => checkedIn checks t.id)

/-- `sumBonusPoints` from `src/domain/scoring.ts` (left-to-right
accumulation). -/
def sumBonusPoints (tasks : List Task) (checks : List (String × Bool)) : ℚ :=
  tasks.foldl (fun total t => if checkedIn checks t.id then total + t.points else total) 0

/-- `calcRank` from `src/domain/scoring.ts`: inclusive lower-bound
thresholds, highest first. -/
def calcRank (score : ℚ) : Rank :=
  if 150 ≤ score then .SSS
  else if 120 ≤ score then .SS
  else if 101 ≤ score then .S
  else .A

/-- `calcScore` from `src/domain/scoring.ts`.  `coreTotal - coreDone` is a
`Nat` subtraction; it never truncates because `coreDone` counts a subset of
the `coreTotal` tasks. -/
def calcScore (tasks : List Task) (dayLog : DayLog) : ScoreResult :=
  let actives := activeTasks tasks
  let cores := coreTasks actives
  let bonuses := bonusTasks actives
  let coreTotal := cores.length
  let coreUnit : ℚ := if 0 < coreTotal then 100 / (coreTotal : ℚ) else 0
  let coreDone := countDone cores dayLog.checks
  let coreIncompleteCount := coreTotal - coreDone
  let bonusScore := sumBonusPoints bonuses dayLog.checks
  let coreScore := (coreDone : ℚ) * coreUnit
  let rawScore := coreScore + bonusScore
  let showRank := decide (0 < coreTotal) && decide (coreIncompleteCount = 0)
  let rank := if showRank then some (calcRank rawScore) else none
  { rawScore := rawScore, coreTotal := coreTotal, coreDone := coreDone,
    coreIncompleteCount := coreIncompleteCount, showRank := showRank, rank := rank }

theorem coreTasks_activeTasks (tasks : List Task) :
    coreTasks (activeTasks tasks) = tasks.filter (fun t => t.isActive && t.isCore) := by
  unfold coreTasks activeTasks
  rw [List.filter_filter]
  congr 1
  funext t
  cases t.isActive <;> cases t.isCore <;> rfl

theorem bonusTasks_activeTasks (tasks : List Task) :
    bonusTasks (activeTasks tasks) = tasks.filter (fun t => t.isActive && !t.isCore) := by
  unfold bonusTasks activeTasks
  rw [List.filter_filter]
  congr 1
  funext t
  cases t.isActive <;> cases t.isCore <;> rfl

theorem countDone_le_length (tasks : List Task) (checks : List (String × Bool)) :
    countDone tasks checks ≤ tasks.length :=
  List.countP_le_length _

theorem countDone_eq_length_iff (tasks : List Task) (checks : List (String × Bool)) :
    countDone tasks checks = tasks.length ↔ ∀ t ∈ tasks, checkedIn checks t.id = true := by
  unfold countDone
  exact List.countP_eq_length

/-- Claim C1: the score result shows a rank exactly when there is at least
one active core task and every active core task is checked in the log; in
particular with zero active core tasks `showRank` is always `false`. -/
theorem claim1_showRank_iff (tasks : List Task) (dayLog : DayLog) :
    ((calcScore tasks dayLog).showRank = true ↔
      0 < (tasks.filter (fun t => t.isActive && t.isCore)).length ∧
        ∀ t ∈ tasks, t.isActive = true → t.isCore = true →
          checkedIn dayLog.checks t.id = true) ∧
    ((tasks.filter (fun t => t.isActive && t.isCore)).length = 0 →
      (calcScore tasks dayLog).showRank = false) := by
  have hcore := coreTasks_activeTasks tasks
  constructor
  · show (_ && _) = true ↔ _
    rw [Bool.and_eq_true, decide_eq_true_iff, decide_eq_true_iff]
    rw [hcore]
    constructor
    · rintro ⟨hpos, hzero⟩
      refine ⟨hpos, ?_⟩
      have hle := countDone_le_length (tasks.filter (fun t => t.isActive && t.isCore)) dayLog.checks
      have heq : countDone (tasks.filter (fun t => t.isActive && t.isCore)) dayLog.checks
          = (tasks.filter (fun t => t.isActive && t.isCore)).length := by omega
      rw [countDone_eq_length_iff] at heq
      intro t ht hact hcoreT
      exact heq t (List.mem_filter.mpr ⟨ht, by rw [hact, hcoreT]; rfl⟩)
    · rintro ⟨hpos, hall⟩
      refine ⟨hpos, ?_⟩
      have heq : countDone (tasks.filter (fun t => t.isActive && t.isCore)) dayLog.checks
          = (tasks.filter (fun t => t.isActive && t.isCore)).length := by
        rw [countDone_eq_length_iff]
        intro t ht
        rcases List.mem_filter.mp ht with ⟨htm, hb⟩
        simp only [Bool.and_eq_true] at hb
        exact hall t htm hb.1 hb.2
      omega
  · intro hzero
    show (_ && _) = false
    rw [hcore]
    simp [hzero]

theorem sumBonusPoints_eq_zero (tasks : List Task) (checks : List (String × Bool))
    (h : ∀ t ∈ tasks, checkedIn checks t.id = false) :
    sumBonusPoints tasks checks = 0 := by
  unfold sumBonusPoints
  induction tasks with
  | nil => rfl
  | cons t rest ih =>
    have ht := h t (List.mem_cons_self t rest)
    simp only [List.foldl_cons, ht, if_neg Bool.false_ne_true]
    exact ih (fun t' ht' => h t' (List.mem_cons_of_mem t ht'))

theorem calcScore_rank_eq (tasks : List Task) (dayLog : DayLog)
    (h : (calcScore tasks dayLog).showRank = true) :
    (calcScore tasks dayLog).rank = some (calcRank (calcScore tasks dayLog).rawScore) := by
  simp only [calcScore] at h ⊢
  rw [if_pos h]

/-- Claim C2: `calcRank` maps a score through inclusive lower-bound
thresholds evaluated highest-first (`150 → SSS`, `120 → SS`, `101 → S`,
else `A`), when a rank is shown it is `calcRank` of the raw score, and the
sample scores 100, 101, 120, 150, 151 map to A, S, SS, SSS, SSS. -/
theorem claim2_rank_thresholds :
    (∀ s : ℚ, 150 ≤ s → calcRank s = .SSS) ∧
    (∀ s : ℚ, s < 150 → 120 ≤ s → calcRank s = .SS) ∧
    (∀ s : ℚ, s < 120 → 101 ≤ s → calcRank s = .S) ∧
    (∀ s : ℚ, s < 101 → calcRank s = .A) ∧
    (∀ (tasks : List Task) (dayLog : DayLog),
      (calcScore tasks dayLog).showRank = true →
        (calcScore tasks dayLog).rank = some (calcRank (calcScore tasks dayLog).rawScore)) ∧
    calcRank 100 = .A ∧ calcRank 101 = .S ∧ calcRank 120 = .SS ∧
    calcRank 150 = .SSS ∧ calcRank 151 = .SSS := by
  refine ⟨?_, ?_, ?_, ?_, calcScore_rank_eq, ?_, ?_, ?_, ?_, ?_⟩
  · intro s h
    simp [calcRank, h]
  · intro s h1 h2
    rw [calcRank, if_neg (by linarith), if_pos h2]
  · intro s h1 h2
    rw [calcRank, if_neg (by linarith), if_neg (by linarith), if_pos h2]
  · intro s h1
    rw [calcRank, if_neg (by linarith), if_neg (by linarith), if_neg (by linarith)]
  all_goals norm_num [calcRank]

/-- A concrete single-core-task list used to exercise the scoring claims. -/
def wCoreTask : Task :=
  { id := "c1", title := "core", points := 0, isCore := true, isActive := true }

/-- A concrete bonus task used to exercise the scoring claims. -/
def wBonusTask : Task :=
  { id := "b1", title := "bonus", points := 7, isCore := false, isActive := true }

/-- A concrete day log with the core task checked and the bonus task
unchecked. -/
def wLogCoreOnly : DayLog :=
  { date := "2026-01-02", checks := [("c1", true)], note := some "",
    excludeFromStats := some false, createdAt := none, updatedAt := none }

theorem claim2_rank_thresholds_witness :
    calcRank 200 = .SSS ∧ calcRank 130 = .SS ∧ calcRank 110 = .S ∧ calcRank 50 = .A ∧
    (calcScore [wCoreTask, wBonusTask] wLogCoreOnly).rank =
      some (calcRank (calcScore [wCoreTask, wBonusTask] wLogCoreOnly).rawScore) :=
  ⟨claim2_rank_thresholds.1 200 (by decide),
   claim2_rank_thresholds.2.1 130 (by decide) (by decide),
   claim2_rank_thresholds.2.2.1 110 (by decide) (by decide),
   claim2_rank_thresholds.2.2.2.1 50 (by decide),
   claim2_rank_thresholds.2.2.2.2.1 [wCoreTask, wBonusTask] wLogCoreOnly (by decide)⟩

/-- Claim C3: with `N > 0` active core tasks all checked and no active
bonus task checked, the raw score is exactly 100 (in the exact-rational
model of JavaScript numbers) and the rank is `A`. -/
theorem claim3_all_core_no_bonus (tasks : List Task) (dayLog : DayLog)
    (hpos : 0 < (coreTasks (activeTasks tasks)).length)
    (hall : ∀ t ∈ tasks, t.isActive = true → t.isCore = true →
      checkedIn dayLog.checks t.id = true)
    (hnob : ∀ t ∈ tasks, t.isActive = true → t.isCore = false →
      checkedIn dayLog.checks t.id = false) :
    (calcScore tasks dayLog).rawScore = 100 ∧
      (calcScore tasks dayLog).rank = some Rank.A := by
  have hcore := coreTasks_activeTasks tasks
  have hbonus := bonusTasks_activeTasks tasks
  have hdone : countDone (coreTasks (activeTasks tasks)) dayLog.checks
      = (coreTasks (activeTasks tasks)).length := by
    rw [countDone_eq_length_iff]
    intro t ht
    rw [hcore] at ht
    rcases List.mem_filter.mp ht with ⟨htm, hb⟩
    simp only [Bool.and_eq_true] at hb
    exact hall t htm hb.1 hb.2
  have hb0 : sumBonusPoints (bonusTasks (activeTasks tasks)) dayLog.checks = 0 := by
    apply sumBonusPoints_eq_zero
    intro t ht
    rw [hbonus] at ht
    rcases List.mem_filter.mp ht with ⟨htm, hb⟩
    simp only [Bool.and_eq_true, Bool.not_eq_true'] at hb
    exact hnob t htm hb.1 hb.2
  have hNne : ((coreTasks (activeTasks tasks)).length : ℚ) ≠ 0 :=
    Nat.cast_ne_zero.mpr (Nat.pos_iff_ne_zero.mp hpos)
  have hraw : (calcScore tasks dayLog).rawScore = 100 := by
    simp only [calcScore, hdone, hb0, if_pos hpos, add_zero]
    field_simp
  refine ⟨hraw, ?_⟩
  have hshow : (calcScore tasks dayLog).showRank = true := by
    simp only [calcScore, hdone]
    simp [hpos]
  rw [calcScore_rank_eq tasks dayLog hshow, hraw]
  norm_num [calcRank]

theorem claim3_all_core_no_bonus_witness :
    (calcScore [wCoreTask, wBonusTask] wLogCoreOnly).rawScore = 100 ∧
      (calcScore [wCoreTask, wBonusTask] wLogCoreOnly).rank = some Rank.A :=
  claim3_all_core_no_bonus [wCoreTask, wBonusTask] wLogCoreOnly
    (by decide) (by decide) (by decide)

/-- A value held in `localStorage`: a serialized day-log map or task array
is kept in parsed form (JSON stringify/parse round-trips these), and `raw`
stands for any other blob (absent from this sum: values that never occupy
the app's keys in a reachable store), in particular one that does not parse
as the expected structure. -/
inductive StoredVal
  | raw (s : String)
  | logsV (m : List (String × DayLog))
  | tasksV (ts : List Task)
deriving DecidableEq, Repr

/-- The `localStorage` contents: an ordered key-value list (`key(i)`
enumerates it in order); real localStorage never holds duplicate keys. -/
abbrev Store := List (String × StoredVal)

/-- `localStorage.getItem`. -/
def getItem (st : Store) (k : String) : Option StoredVal := alookup st k

/-- `localStorage.setItem`. -/
def setItem (st : Store) (k : String) (v : StoredVal) : Store := objSet st k v

/-- `localStorage.removeItem`. -/
def removeItem (st : Store) (k : String) : Store := aerase st k

/-- `KEYS.tasks` of `src/infra/storage.ts`. -/
def tasksKey : String := "tasks_v1"

/-- `KEYS.dayLogsV1` of `src/infra/storage.ts`. -/
def v1Key : String := "daylogs_v1"

/-- `KEYS.dayLogsV1Backup` of `src/infra/storage.ts`. -/
def backupKey : String := "daylogs_v1_backup"

/-- `V2_PREFIX` of `src/infra/storage.ts`. -/
def v2Base : String := "daylogs_v2_"

/-- `v2Key` of `src/infra/storage.ts`. -/
def v2Key (month : String) : String := v2Base ++ month

/-- Character-list version of `String.startsWith` (structurally recursive,
so concrete instances evaluate in the kernel). -/
def charsLead : List Char → List Char → Bool
  | [], _ => true
  | _ :: _, [] => false
  | c :: cs, d :: ds => c == d && charsLead cs ds

/-- `s.startsWith pre` for the ASCII keys the app uses. -/
def strLeads (s pre : String) : Bool := charsLead pre.data s.data

/-- `s.slice n` for ASCII strings (byte offsets coincide with character
offsets). -/
def strDropChars (s : String) (n : Nat) : String := String.mk (s.data.drop n)

/-- `day.slice(0, 7)`: "YYYY-MM-DD" to "YYYY-MM" (`toMonthISO` in
`src/infra/storage.ts`). -/
def toMonthISO (day : String) : String := String.mk (day.data.take 7)

/-- JavaScript string comparison (`a < b`, code-unit lexicographic),
character-list structural version. -/
def charsLt : List Char → List Char → Bool
  | _, [] => false
  | [], _ :: _ => true
  | c :: cs, d :: ds => if c < d then true else if d < c then false else charsLt cs ds

/-- JavaScript `a < b` on strings. -/
def strLt (a b : String) : Bool := charsLt a.data b.data

/-- Insertion step of the descending sort used by `listV2Months`
(`months.sort((a, b) => a < b ? 1 : a > b ? -1 : 0)`). -/
def insertDesc (x : String) : List String → List String
  | [] => [x]
  | y :: ys => if strLt x y then y :: insertDesc x ys else x :: y :: ys

/-- Descending lexicographic sort (insertion sort; the keys are distinct in
any real store, so stability is irrelevant). -/
def sortDesc : List String → List String
  | [] => []
  | x :: xs => insertDesc x (sortDesc xs)

/-- `safeJsonParse` of a raw localStorage value followed by the
`data && typeof data === "object"` guard: yields a day-log map exactly when
the blob is a serialized day-log map. -/
def parseLogs : Option StoredVal → Option (List (String × DayLog))
  | some (.logsV m) => some m
  | _ => none

/-- `loadMonthMap` of `src/infra/storage.ts`. -/
def loadMonthMap (st : Store) (month : String) : List (String × DayLog) :=
  (parseLogs (getItem st (v2Key month))).getD []

/-- `saveMonthMap` of `src/infra/storage.ts`. -/
def saveMonthMap (st : Store) (month : String) (m : List (String × DayLog)) : Store :=
  setItem st (v2Key month) (.logsV m)

/-- `listV2Months` of `src/infra/storage.ts`: scan all keys, keep the
month suffix of those starting with the v2 key base, sort descending. -/
def listV2Months (st : Store) : List String :=
  sortDesc ((st.map Prod.fst).filterMap
    (fun k => if strLeads k v2Base then some (strDropChars k v2Base.data.length) else none))

/-- JavaScript falsiness of a stored value (`if (!v1Raw) return`):
`getItem` returned the empty string.  A parsed-form value serializes to a
nonempty JSON text, hence is truthy. -/
def jsFalsy : StoredVal → Bool
  | .raw s => s == ""
  | _ => false

/-- JavaScript falsiness of a `getItem` result (`!localStorage.getItem(k)`):
true when the key is absent (`null`) or holds the empty string. -/
def jsFalsyOpt : Option StoredVal → Bool
  | none => true
  | some v => jsFalsy v

/-- One step of the month bucketing loop of `migrateV1ToV2IfNeeded`
(`bucket[month] ??= {}; bucket[month][date] = log`). -/
def bucketIns (b : List (String × List (String × DayLog))) (p : String × DayLog) :
    List (String × List (String × DayLog)) :=
  let month := toMonthISO p.1
  let cur := (alookup b month).getD []
  objSet b month (objSet cur p.1 p.2)

/-- The month bucketing loop of `migrateV1ToV2IfNeeded`. -/
def buildBucket (m : List (String × DayLog)) : List (String × List (String × DayLog)) :=
  m.foldl bucketIns []

/-- JavaScript object spread merge `{ ...a, ...b }`: start from `a`'s
entries, then write each of `b`'s entries over it (`b` wins on
collisions). -/
def objMerge (a b : List (String × DayLog)) : List (String × DayLog) :=
  b.foldl (fun acc q => objSet acc q.1 q.2) a

/-- The shard-writing loop of `migrateV1ToV2IfNeeded`: for each bucketed
month, merge the legacy entries under the existing shard (`{ ...map,
...current }`, existing `current` wins) and save the shard. -/
def writeShards (st : Store) (bucket : List (String × List (String × DayLog))) : Store :=
  bucket.foldl (fun s p => saveMonthMap s p.1 (objMerge p.2 (loadMonthMap s p.1))) st

/-- The storage effect of `migrateV1ToV2IfNeeded` (the body after the
`migratedOnce` latch): absent or falsy or unparseable legacy blob means
nothing to migrate; otherwise back up the blob when the backup slot is
falsy (`if (!localStorage.getItem(KEYS.dayLogsV1Backup))` — absent or the
empty string), bucket it by month, merge each bucket under the existing
shard, and remove the legacy key. -/
def migrateStore (st : Store) : Store :=
  match getItem st v1Key with
  | none => st
  | some v1Raw =>
    if jsFalsy v1Raw then st
    else
      match parseLogs (some v1Raw) with
      | none => st
      | some v1 =>
        let st1 := if jsFalsyOpt (getItem st backupKey) then setItem st backupKey v1Raw
          else st
        let st2 := writeShards st1 (buildBucket v1)
        removeItem st2 v1Key

/-- Module state of `src/infra/storage.ts`: the `migratedOnce` latch plus
the localStorage contents. -/
structure SState where
  migratedOnce : Bool
  store : Store
deriving DecidableEq, Repr

/-- `migrateV1ToV2IfNeeded` of `src/infra/storage.ts` including its
session latch. -/
def migrateIfNeeded (s : SState) : SState :=
  if s.migratedOnce then s else { migratedOnce := true, store := migrateStore s.store }

/-- `Math.round` on an exact rational: round half toward positive
infinity. -/
def jsRound (q : ℚ) : Int := ⌊q + 1 / 2⌋

/-- The per-task normalization step of `loadTasks` (pass 1): core tasks get
`points = 0`; other tasks get `points` rounded and clamped to `[1, 10]`.
The `isFinite` guard of the source is vacuous here: rationals are finite,
and JSON cannot carry `NaN`/`Infinity`.  The second component is the
contribution to the `changed` flag. -/
def normTask (t : Task) : Task × Bool :=
  if t.isCore then
    if t.points ≠ 0 then ({ t with points := 0 }, true) else (t, false)
  else
    let p := jsRound t.points
    let clamped : Int := min 10 (max 1 p)
    if t.points ≠ (clamped : ℚ) then ({ t with points := (clamped : ℚ) }, true)
    else (t, false)

/-- The core-cap pass of `loadTasks` (pass 2), carrying the running count
of active core tasks seen so far: the sixth and later active core tasks are
demoted to `isCore = false`.  The second component is the contribution to
the `changed` flag. -/
def limitCore : List Task → Nat → List Task × Bool
  | [], _ => ([], false)
  | t :: rest, n =>
    if t.isActive && t.isCore then
      if 5 < n + 1 then
        let r := limitCore rest (n + 1)
        ({ t with isCore := false } :: r.1, true)
      else
        let r := limitCore rest (n + 1)
        (t :: r.1, r.2)
    else
      let r := limitCore rest n
      (t :: r.1, r.2)

/-- `safeJsonParse` followed by the `Array.isArray(data) ? data : []` guard
of `loadTasks`. -/
def parseTasks : Option StoredVal → List Task
  | some (.tasksV ts) => ts
  | _ => []

/-- `loadTasks` of `src/infra/storage.ts`: read, normalize points, cap the
active core tasks at five, and persist the corrected list when anything
changed. -/
def loadTasks (st : Store) : List Task × Store :=
  let tasks := parseTasks (getItem st tasksKey)
  let normalized := tasks.map (fun t => (normTask t).1)
  let changed1 := tasks.any (fun t => (normTask t).2)
  let lim := limitCore normalized 0
  let changed := changed1 || lim.2
  if changed then (lim.1, setItem st tasksKey (.tasksV lim.1)) else (lim.1, st)

/-- `saveTasks` of `src/infra/storage.ts`. -/
def saveTasks (st : Store) (tasks : List Task) : Store :=
  setItem st tasksKey (.tasksV tasks)

/-- The synthesized default record `getDayLog` returns when nothing is
stored for the date. -/
def defaultDayLog (date : String) : DayLog :=
  { date := date, checks := [], note := some "", excludeFromStats := some false,
    createdAt := none, updatedAt := none }

/-- `getDayLog` of `src/infra/storage.ts` (it also runs the migration, so
it returns the updated module state as well). -/
def getDayLog (s : SState) (date : String) : DayLog × SState :=
  let s1 := migrateIfNeeded s
  let map := loadMonthMap s1.store (toMonthISO date)
  ((alookup map date).getD (defaultDayLog date), s1)

/-- `upsertDayLog` of `src/infra/storage.ts`; `now` is the `Date.now()`
value of this call. -/
def upsertDayLog (s : SState) (now : Nat) (log : DayLog) : SState :=
  let s1 := migrateIfNeeded s
  let month := toMonthISO log.date
  let map := loadMonthMap s1.store month
  let prev := alookup map log.date
  let entry : DayLog :=
    { log with
      createdAt := ((prev.bind DayLog.createdAt).or log.createdAt).or (some now),
      updatedAt := some now }
  { s1 with store := saveMonthMap s1.store month (objSet map log.date entry) }

/-- `deleteDayLog` of `src/infra/storage.ts`. -/
def deleteDayLog (s : SState) (date : String) : SState :=
  let s1 := migrateIfNeeded s
  let month := toMonthISO date
  let map := loadMonthMap s1.store month
  if (alookup map date).isSome then
    { s1 with store := saveMonthMap s1.store month (aerase map date) }
  else s1

/-- `listAvailableMonths` of `src/infra/storage.ts`. -/
def listAvailableMonths (s : SState) : List String × SState :=
  let s1 := migrateIfNeeded s
  (listV2Months s1.store, s1)

/-- JavaScript `String.prototype.trim` on the ASCII notes in scope:
whitespace stripped from both ends (structural char-list version). -/
def jsTrim (s : String) : String :=
  String.mk (((s.data.dropWhile Char.isWhitespace).reverse.dropWhile Char.isWhitespace).reverse)

/-- `isEmptyDayLog` of `src/pages/Today.tsx`: no truthy exclusion flag, a
blank (empty or whitespace-only) note, and no check set to true. -/
def isEmptyDayLog (log : DayLog) : Bool :=
  if log.excludeFromStats.getD false then false
  else if 0 < (jsTrim (log.note.getD "")).length then false
  else !(log.checks.any (fun p => p.2))

/-- `persistDayLog` of `src/pages/Today.tsx`: an empty draft deletes the
day's entry, anything else is upserted.  The draft carries a definite note
string and exclusion flag and no timestamps, as in the page's state. -/
def persistDayLog (s : SState) (now : Nat) (date : String)
    (checks : List (String × Bool)) (note : String) (excludeFromStats : Bool) : SState :=
  let log : DayLog :=
    { date := date, checks := checks, note := some note,
      excludeFromStats := some excludeFromStats, createdAt := none, updatedAt := none }
  if isEmptyDayLog log then deleteDayLog s date else upsertDayLog s now log

theorem getItem_setItem_self (st : Store) (k : String) (v : StoredVal) :
    getItem (setItem st k v) k = some v :=
  alookup_objSet_self st k v

theorem getItem_setItem_ne (st : Store) (k k' : String) (v : StoredVal) (h : k ≠ k') :
    getItem (setItem st k v) k' = getItem st k' :=
  alookup_objSet_ne st k k' v h

theorem getItem_removeItem_self (st : Store) (k : String) :
    getItem (removeItem st k) k = none :=
  alookup_aerase_self st k

theorem getItem_removeItem_ne (st : Store) (k k' : String) (h : k ≠ k') :
    getItem (removeItem st k) k' = getItem st k' :=
  alookup_aerase_ne st k k' h

theorem loadMonthMap_saveMonthMap_self (st : Store) (month : String)
    (m : List (String × DayLog)) : loadMonthMap (saveMonthMap st month m) month = m := by
  unfold loadMonthMap saveMonthMap
  rw [getItem_setItem_self]
  rfl

theorem migrateIfNeeded_migratedOnce (s : SState) :
    (migrateIfNeeded s).migratedOnce = true := by
  unfold migrateIfNeeded
  split
  · assumption
  · rfl

theorem migrateIfNeeded_latched (s : SState) (h : s.migratedOnce = true) :
    migrateIfNeeded s = s := by
  simp [migrateIfNeeded, h]

theorem upsertDayLog_migratedOnce (s : SState) (now : Nat) (log : DayLog) :
    (upsertDayLog s now log).migratedOnce = true := by
  unfold upsertDayLog
  exact migrateIfNeeded_migratedOnce s

theorem deleteDayLog_migratedOnce (s : SState) (date : String) :
    (deleteDayLog s date).migratedOnce = true := by
  simp only [deleteDayLog]
  split
  · exact migrateIfNeeded_migratedOnce s
  · exact migrateIfNeeded_migratedOnce s

/-- The record stored for `log.date` right after `upsertDayLog`: the
written log, with `createdAt` resolved by `prev?.createdAt ??
log.createdAt ?? now` and `updatedAt` stamped to `now`. -/
theorem upsertDayLog_stored (s : SState) (now : Nat) (log : DayLog) :
    alookup (loadMonthMap (upsertDayLog s now log).store (toMonthISO log.date)) log.date =
      some { log with
        createdAt := (((alookup (loadMonthMap (migrateIfNeeded s).store (toMonthISO log.date))
            log.date).bind DayLog.createdAt).or log.createdAt).or (some now),
        updatedAt := some now } := by
  unfold upsertDayLog
  rw [loadMonthMap_saveMonthMap_self, alookup_objSet_self]

/-- `getDayLog` on a latched state with a stored record returns that
record. -/
theorem getDayLog_of_stored (s : SState) (date : String) (e : DayLog)
    (hlatch : s.migratedOnce = true)
    (h : alookup (loadMonthMap s.store (toMonthISO date)) date = some e) :
    (getDayLog s date).1 = e := by
  simp only [getDayLog]
  rw [migrateIfNeeded_latched s hlatch, h]
  rfl

/-- Claim C9 (counterexample): `saveTasks` on an empty store leaves
nothing under the key `tasks`; the task list actually lands under
`tasks_v1`. -/
theorem claim9_counterexample :
    getItem (saveTasks [] [wCoreTask]) "tasks" = none ∧
    getItem (saveTasks [] [wCoreTask]) "tasks_v1" = some (.tasksV [wCoreTask]) := by
  decide

/-- Claim C9 (amended): the task list is persisted under the storage key
`tasks_v1`: `saveTasks` writes the task array to that key, and `loadTasks`
reads (then normalizes) the task array found at that key. -/
theorem claim9_amended_tasks_key (st : Store) (tasks : List Task) :
    getItem (saveTasks st tasks) tasksKey = some (.tasksV tasks) ∧
    tasksKey = "tasks_v1" ∧
    (loadTasks st).1 =
      (limitCore ((parseTasks (getItem st tasksKey)).map (fun t => (normTask t).1)) 0).1 := by
  refine ⟨getItem_setItem_self st tasksKey (.tasksV tasks), rfl, ?_⟩
  simp only [loadTasks]
  split <;> rfl

/-- Claim C5: persisting a draft with no true check, a blank note and
`excludeFromStats = false` stores nothing for that date (the entry is
deleted), and a subsequent `getDayLog` returns the synthesized default
record. -/
theorem claim5_empty_log_deleted (s : SState) (now : Nat) (date : String)
    (checks : List (String × Bool)) (note : String)
    (hch : ∀ p ∈ checks, p.2 = false) (hnote : jsTrim note = "") :
    alookup (loadMonthMap (persistDayLog s now date checks note false).store
      (toMonthISO date)) date = none ∧
    (getDayLog (persistDayLog s now date checks note false) date).1 = defaultDayLog date := by
  have hany : checks.any (fun p => p.2) = false := by
    rw [List.any_eq_false]
    intro p hp
    simp [hch p hp]
  have hempty : isEmptyDayLog
      { date := date, checks := checks, note := some note,
        excludeFromStats := some false, createdAt := none, updatedAt := none } = true := by
    unfold isEmptyDayLog
    simp only [Option.getD_some, if_neg Bool.false_ne_true, hnote, hany]
    rfl
  have hpersist : persistDayLog s now date checks note false = deleteDayLog s date := by
    unfold persistDayLog
    rw [if_pos hempty]
  rw [hpersist]
  have hnone : alookup (loadMonthMap (deleteDayLog s date).store (toMonthISO date)) date
      = none := by
    simp only [deleteDayLog]
    split
    · rw [loadMonthMap_saveMonthMap_self]
      exact alookup_aerase_self _ date
    · rename_i hsome
      rw [Bool.not_eq_true] at hsome
      exact Option.not_isSome_iff_eq_none.mp (by rw [hsome]; exact Bool.false_ne_true)
  refine ⟨hnone, ?_⟩
  simp only [getDayLog]
  rw [migrateIfNeeded_latched _ (deleteDayLog_migratedOnce s date), hnone]
  rfl

theorem claim5_empty_log_deleted_witness :
    alookup (loadMonthMap (persistDayLog ⟨false, []⟩ 7 "2026-01-02" [("c1", false)] "  " false).store
      (toMonthISO "2026-01-02")) "2026-01-02" = none ∧
    (getDayLog (persistDayLog ⟨false, []⟩ 7 "2026-01-02" [("c1", false)] "  " false)
      "2026-01-02").1 = defaultDayLog "2026-01-02" :=
  claim5_empty_log_deleted ⟨false, []⟩ 7 "2026-01-02" [("c1", false)] "  "
    (by decide) (by decide)

/-- Claim C10: when no record is stored yet for `log.date`, the stored
`createdAt` is the caller-supplied `log.createdAt` when present, and only
defaults to the current time when the incoming log carries none. -/
theorem claim10_caller_createdAt (s : SState) (now : Nat) (log : DayLog)
    (hnew : alookup (loadMonthMap (migrateIfNeeded s).store (toMonthISO log.date))
      log.date = none) :
    (getDayLog (upsertDayLog s now log) log.date).1.createdAt = log.createdAt.or (some now) ∧
    (∀ c, log.createdAt = some c →
      (getDayLog (upsertDayLog s now log) log.date).1.createdAt = some c) ∧
    (log.createdAt = none →
      (getDayLog (upsertDayLog s now log) log.date).1.createdAt = some now) := by
  have hread := getDayLog_of_stored (upsertDayLog s now log) log.date _
    (upsertDayLog_migratedOnce s now log) (upsertDayLog_stored s now log)
  rw [hread]
  rw [hnew]
  simp only [Option.bind_none, Option.none_or]
  refine ⟨rfl, ?_, ?_⟩
  · intro c hc
    rw [hc]
    rfl
  · intro hc
    rw [hc]
    rfl

/-- A concrete day log carrying a caller-supplied `createdAt`. -/
def wStampedLog : DayLog :=
  { date := "2026-01-02", checks := [], note := none, excludeFromStats := none,
    createdAt := some 4, updatedAt := none }

theorem claim10_caller_createdAt_witness :
    (getDayLog (upsertDayLog ⟨true, []⟩ 9 wStampedLog) "2026-01-02").1.createdAt = some 4 :=
  (claim10_caller_createdAt ⟨true, []⟩ 9 wStampedLog (by decide)).2.1 4 rfl

theorem claim1_showRank_iff_witness :
    (calcScore [wCoreTask] wLogCoreOnly).showRank = true :=
  (claim1_showRank_iff [wCoreTask] wLogCoreOnly).1.mpr ⟨by decide, by decide⟩

/-- A sequence of `upsertDayLog` calls, each with its own `Date.now()`
value. -/
def applyUpserts (s : SState) (ws : List (Nat × DayLog)) : SState :=
  ws.foldl (fun acc w => upsertDayLog acc w.1 w.2) s

theorem applyUpserts_preserves_createdAt (d : String) (c : Nat)
    (ws : List (Nat × DayLog)) :
    ∀ s : SState, s.migratedOnce = true → (∀ w ∈ ws, w.2.date = d) →
    (∃ e, alookup (loadMonthMap s.store (toMonthISO d)) d = some e ∧
      e.createdAt = some c) →
    (applyUpserts s ws).migratedOnce = true ∧
    ∃ e, alookup (loadMonthMap (applyUpserts s ws).store (toMonthISO d)) d = some e ∧
      e.createdAt = some c := by
  induction ws with
  | nil =>
    intro s h1 _ h3
    exact ⟨h1, h3⟩
  | cons w ws ih =>
    rintro s h1 hd ⟨e, he, hec⟩
    have hdate : w.2.date = d := hd w (List.mem_cons_self w ws)
    have hstored := upsertDayLog_stored s w.1 w.2
    rw [hdate, migrateIfNeeded_latched s h1, he] at hstored
    have hb : (some e).bind DayLog.createdAt = some c := hec
    have hcr : (((some e).bind DayLog.createdAt).or w.2.createdAt).or (some w.1)
        = some c := by rw [hb]; rfl
    have hstep : applyUpserts s (w :: ws) = applyUpserts (upsertDayLog s w.1 w.2) ws := rfl
    rw [hstep]
    refine ih (upsertDayLog s w.1 w.2) (upsertDayLog_migratedOnce s w.1 w.2)
      (fun w' hw' => hd w' (List.mem_cons_of_mem w hw')) ?_
    exact ⟨_, hstored, hcr⟩

/-- Claim C4: `upsertDayLog` then `getDayLog` on the same date returns the
written `checks`/`note`/`excludeFromStats` with `updatedAt` restamped to
the current time, and `createdAt` as established by the first write stays
unchanged under any further sequence of upserts to that date. -/
theorem claim4_upsert_get_roundtrip (s : SState) (now : Nat) (log : DayLog)
    (ws : List (Nat × DayLog)) (hws : ∀ w ∈ ws, w.2.date = log.date) :
    (getDayLog (upsertDayLog s now log) log.date).1.checks = log.checks ∧
    (getDayLog (upsertDayLog s now log) log.date).1.note = log.note ∧
    (getDayLog (upsertDayLog s now log) log.date).1.excludeFromStats
      = log.excludeFromStats ∧
    (getDayLog (upsertDayLog s now log) log.date).1.updatedAt = some now ∧
    (getDayLog (applyUpserts (upsertDayLog s now log) ws) log.date).1.createdAt
      = (getDayLog (upsertDayLog s now log) log.date).1.createdAt := by
  have hstored := upsertDayLog_stored s now log
  have hread := getDayLog_of_stored (upsertDayLog s now log) log.date _
    (upsertDayLog_migratedOnce s now log) hstored
  rw [hread]
  refine ⟨rfl, rfl, rfl, rfl, ?_⟩
  obtain ⟨c, hc⟩ : ∃ c,
      (((alookup (loadMonthMap (migrateIfNeeded s).store (toMonthISO log.date))
        log.date).bind DayLog.createdAt).or log.createdAt).or (some now) = some c := by
    cases h : ((alookup (loadMonthMap (migrateIfNeeded s).store (toMonthISO log.date))
        log.date).bind DayLog.createdAt).or log.createdAt with
    | none => exact ⟨now, rfl⟩
    | some x => exact ⟨x, rfl⟩
  have hinv := applyUpserts_preserves_createdAt log.date c ws
    (upsertDayLog s now log) (upsertDayLog_migratedOnce s now log) hws
    ⟨_, hstored, hc⟩
  obtain ⟨hlatch', e', he', hec'⟩ := hinv
  have hread' := getDayLog_of_stored (applyUpserts (upsertDayLog s now log) ws)
    log.date e' hlatch' he'
  rw [hread', hec']
  show some c = { log with createdAt := _, updatedAt := some now }.createdAt
  rw [hc.symm]

theorem claim4_upsert_get_roundtrip_witness :
    (getDayLog (upsertDayLog ⟨true, []⟩ 3 wStampedLog) wStampedLog.date).1.checks
      = wStampedLog.checks ∧
    (getDayLog (upsertDayLog ⟨true, []⟩ 3 wStampedLog) wStampedLog.date).1.note
      = wStampedLog.note ∧
    (getDayLog (upsertDayLog ⟨true, []⟩ 3 wStampedLog) wStampedLog.date).1.excludeFromStats
      = wStampedLog.excludeFromStats ∧
    (getDayLog (upsertDayLog ⟨true, []⟩ 3 wStampedLog) wStampedLog.date).1.updatedAt
      = some 3 ∧
    (getDayLog (applyUpserts (upsertDayLog ⟨true, []⟩ 3 wStampedLog)
        [(5, wLogCoreOnly)]) wStampedLog.date).1.createdAt
      = (getDayLog (upsertDayLog ⟨true, []⟩ 3 wStampedLog) wStampedLog.date).1.createdAt :=
  claim4_upsert_get_roundtrip ⟨true, []⟩ 3 wStampedLog [(5, wLogCoreOnly)] (by decide)

/-- Claim C8: the migration step is idempotent at the store level and at
the session level, repeat in-session calls are latched no-ops, and an
absent or empty or unparseable legacy blob means nothing to migrate. -/
theorem claim8_migration_idempotent :
    (∀ st : Store, migrateStore (migrateStore st) = migrateStore st) ∧
    (∀ s : SState, migrateIfNeeded (migrateIfNeeded s) = migrateIfNeeded s) ∧
    (∀ s : SState, s.migratedOnce = true → migrateIfNeeded s = s) ∧
    (∀ st : Store, getItem st v1Key = none → migrateStore st = st) ∧
    (∀ (st : Store) (blob : String),
      getItem st v1Key = some (.raw blob) → migrateStore st = st) := by
  have habsent : ∀ st : Store, getItem st v1Key = none → migrateStore st = st := by
    intro st h
    unfold migrateStore
    rw [h]
  have hraw : ∀ (st : Store) (blob : String),
      getItem st v1Key = some (.raw blob) → migrateStore st = st := by
    intro st blob h
    unfold migrateStore
    rw [h]
    by_cases hb : blob == ""
    · simp [jsFalsy, hb]
    · simp [jsFalsy, hb, parseLogs]
  have hstore : ∀ st : Store, migrateStore (migrateStore st) = migrateStore st := by
    intro st
    cases hv : getItem st v1Key with
    | none => rw [habsent st hv, habsent st hv]
    | some v =>
      cases v with
      | raw blob => rw [hraw st blob hv, hraw st blob hv]
      | tasksV ts =>
        have hts : migrateStore st = st := by
          unfold migrateStore
          rw [hv]
          simp [jsFalsy, parseLogs]
        rw [hts, hts]
      | logsV m =>
        have hgone : getItem (migrateStore st) v1Key = none := by
          unfold migrateStore
          rw [hv]
          show getItem (removeItem _ v1Key) v1Key = none
          exact getItem_removeItem_self _ v1Key
        exact habsent (migrateStore st) hgone
  have hlatch : ∀ s : SState, s.migratedOnce = true → migrateIfNeeded s = s :=
    fun s h => migrateIfNeeded_latched s h
  refine ⟨hstore, ?_, hlatch, habsent, hraw⟩
  intro s
  exact hlatch (migrateIfNeeded s) (migrateIfNeeded_migratedOnce s)

theorem claim8_migration_idempotent_witness :
    migrateIfNeeded ⟨true, []⟩ = ⟨true, []⟩ ∧
    migrateStore [] = [] ∧
    migrateStore [(v1Key, StoredVal.raw "not json")] = [(v1Key, StoredVal.raw "not json")] ∧
    migrateStore [(v1Key, StoredVal.raw "")] = [(v1Key, StoredVal.raw "")] :=
  ⟨claim8_migration_idempotent.2.2.1 ⟨true, []⟩ rfl,
   claim8_migration_idempotent.2.2.2.1 [] (by decide),
   claim8_migration_idempotent.2.2.2.2 [(v1Key, StoredVal.raw "not json")] "not json"
     (by decide),
   claim8_migration_idempotent.2.2.2.2 [(v1Key, StoredVal.raw "")] "" (by decide)⟩

theorem loadTasks_fst (st : Store) :
    (loadTasks st).1 =
      (limitCore ((parseTasks (getItem st tasksKey)).map (fun t => (normTask t).1)) 0).1 := by
  simp only [loadTasks]
  split <;> rfl

theorem normTask_isCore (t : Task) : (normTask t).1.isCore = t.isCore := by
  unfold normTask
  split
  · split <;> rfl
  · dsimp only
    split <;> rfl

theorem normTask_core_points (t : Task) (h : t.isCore = true) :
    (normTask t).1.points = 0 := by
  unfold normTask
  rw [if_pos h]
  by_cases hp : t.points ≠ 0
  · rw [if_pos hp]
  · rw [if_neg hp]
    dsimp only
    exact Classical.not_not.mp hp

theorem normTask_noncore_points (t : Task) (h : t.isCore = false) :
    ∃ k : ℤ, (normTask t).1.points = (k : ℚ) ∧ 1 ≤ k ∧ k ≤ 10 := by
  unfold normTask
  rw [if_neg (by rw [h]; exact Bool.false_ne_true)]
  dsimp only
  refine ⟨min 10 (max 1 (jsRound t.points)), ?_, ?_, ?_⟩
  · split
    · rfl
    · rename_i hne
      exact Classical.not_not.mp hne
  · exact le_min (by norm_num) (le_max_left 1 _)
  · exact min_le_left 10 _

theorem limitCore_length (l : List Task) (n : Nat) :
    (limitCore l n).1.length = l.length := by
  induction l generalizing n with
  | nil => rfl
  | cons t rest ih =>
    simp only [limitCore]
    split
    · split <;> simp [ih]
    · simp [ih]

theorem limitCore_mem (l : List Task) (n : Nat) (t' : Task)
    (h : t' ∈ (limitCore l n).1) :
    t' ∈ l ∨ ∃ t ∈ l, (t.isActive = true ∧ t.isCore = true) ∧
      t' = { t with isCore := false } := by
  induction l generalizing n with
  | nil => exact absurd h (by simp [limitCore])
  | cons t rest ih =>
    simp only [limitCore] at h
    by_cases hac : (t.isActive && t.isCore) = true
    · rw [if_pos hac] at h
      have hac2 := hac
      rw [Bool.and_eq_true] at hac2
      obtain ⟨ha, hc⟩ := hac2
      by_cases h5 : 5 < n + 1
      · rw [if_pos h5] at h
        rcases List.mem_cons.mp h with h0 | hrest
        · exact Or.inr ⟨t, List.mem_cons_self t rest, ⟨ha, hc⟩, h0⟩
        · rcases ih (n + 1) hrest with hl | ⟨u, hu, hprop, heq⟩
          · exact Or.inl (List.mem_cons_of_mem t hl)
          · exact Or.inr ⟨u, List.mem_cons_of_mem t hu, hprop, heq⟩
      · rw [if_neg h5] at h
        rcases List.mem_cons.mp h with h0 | hrest
        · exact Or.inl (h0 ▸ List.mem_cons_self t rest)
        · rcases ih (n + 1) hrest with hl | ⟨u, hu, hprop, heq⟩
          · exact Or.inl (List.mem_cons_of_mem t hl)
          · exact Or.inr ⟨u, List.mem_cons_of_mem t hu, hprop, heq⟩
    · rw [if_neg hac] at h
      rcases List.mem_cons.mp h with h0 | hrest
      · exact Or.inl (h0 ▸ List.mem_cons_self t rest)
      · rcases ih n hrest with hl | ⟨u, hu, hprop, heq⟩
        · exact Or.inl (List.mem_cons_of_mem t hl)
        · exact Or.inr ⟨u, List.mem_cons_of_mem t hu, hprop, heq⟩

theorem limitCore_countP (l : List Task) (n : Nat) :
    (limitCore l n).1.countP (fun t => t.isActive && t.isCore) ≤ 5 - n := by
  induction l generalizing n with
  | nil => simp [limitCore]
  | cons t rest ih =>
    simp only [limitCore]
    by_cases hac : (t.isActive && t.isCore) = true
    · by_cases h5 : 5 < n + 1
      · have := ih (n + 1)
        simp [hac, h5, List.countP_cons]
        omega
      · have := ih (n + 1)
        simp [hac, h5, List.countP_cons]
        omega
    · have := ih n
      have hacf : (t.isActive && t.isCore) = false := by
        revert hac
        cases t.isActive <;> cases t.isCore <;> simp
      simp [hacf, List.countP_cons]
      omega

theorem limitCore_filter (l : List Task) (n : Nat) :
    (limitCore l n).1.filter (fun t => t.isActive && t.isCore) =
      (l.filter (fun t => t.isActive && t.isCore)).take (5 - n) := by
  induction l generalizing n with
  | nil => simp [limitCore]
  | cons t rest ih =>
    simp only [limitCore]
    by_cases hac : (t.isActive && t.isCore) = true
    · by_cases h5 : 5 < n + 1
      · have hn0 : 5 - n = 0 := by omega
        have hn1 : 5 - (n + 1) = 0 := by omega
        simp [hac, h5, List.filter_cons, ih (n + 1), hn0, hn1]
      · simp [hac, h5, List.filter_cons, ih (n + 1)]
        have hn : 4 - n = 5 - (n + 1) := by omega
        have hn2 : 5 - n = (5 - (n + 1)) + 1 := by omega
        rw [hn, hn2, List.take_succ_cons]
    · have hacf : (t.isActive && t.isCore) = false := by
        revert hac
        cases t.isActive <;> cases t.isCore <;> simp
      simp [hacf, List.filter_cons, ih n]

theorem limitCore_get (l : List Task) (n i : Nat) (h : i < l.length)
    (h2 : i < (limitCore l n).1.length) :
    (limitCore l n).1[i] =
      if ((l[i]).isActive && (l[i]).isCore) = true ∧
          5 < n + (l.take (i + 1)).countP (fun t => t.isActive && t.isCore)
      then { (l[i]) with isCore := false } else l[i] := by
  induction l generalizing n i with
  | nil => exact absurd h (Nat.not_lt_zero i)
  | cons t rest ih =>
    by_cases hac : (t.isActive && t.isCore) = true
    · by_cases h5 : 5 < n + 1
      · have hout : (limitCore (t :: rest) n).1
            = { t with isCore := false } :: (limitCore rest (n + 1)).1 := by
          simp [limitCore, hac, h5]
        cases i with
        | zero => simp [hout, hac, h5, List.countP_cons]
        | succ j =>
          have hj : j < rest.length := Nat.succ_lt_succ_iff.mp h
          have hj2 : j < (limitCore rest (n + 1)).1.length := by
            rw [limitCore_length]
            exact hj
          have hlhs : (limitCore (t :: rest) n).1[j + 1] = (limitCore rest (n + 1)).1[j] := by
            simp [hout]
          rw [hlhs, ih (n + 1) j hj hj2]
          simp only [List.getElem_cons_succ, List.take_succ_cons, List.countP_cons, hac,
            if_true]
          exact if_congr (by constructor <;> (rintro ⟨a, b⟩; exact ⟨a, by omega⟩)) rfl rfl
      · have hout : (limitCore (t :: rest) n).1
            = t :: (limitCore rest (n + 1)).1 := by
          simp [limitCore, hac, h5]
        cases i with
        | zero => simp [hout, hac, h5, List.countP_cons]
        | succ j =>
          have hj : j < rest.length := Nat.succ_lt_succ_iff.mp h
          have hj2 : j < (limitCore rest (n + 1)).1.length := by
            rw [limitCore_length]
            exact hj
          have hlhs : (limitCore (t :: rest) n).1[j + 1] = (limitCore rest (n + 1)).1[j] := by
            simp [hout]
          rw [hlhs, ih (n + 1) j hj hj2]
          simp only [List.getElem_cons_succ, List.take_succ_cons, List.countP_cons, hac,
            if_true]
          exact if_congr (by constructor <;> (rintro ⟨a, b⟩; exact ⟨a, by omega⟩)) rfl rfl
    · have hacf : (t.isActive && t.isCore) = false := by
        revert hac
        cases t.isActive <;> cases t.isCore <;> simp
      have hout : (limitCore (t :: rest) n).1 = t :: (limitCore rest n).1 := by
        simp [limitCore, hacf]
      cases i with
      | zero => simp [hout, hacf, List.countP_cons]
      | succ j =>
        have hj : j < rest.length := Nat.succ_lt_succ_iff.mp h
        have hj2 : j < (limitCore rest n).1.length := by
          rw [limitCore_length]
          exact hj
        have hlhs : (limitCore (t :: rest) n).1[j + 1] = (limitCore rest n).1[j] := by
          simp [hout]
        rw [hlhs, ih n j hj hj2]
        simp only [List.getElem_cons_succ, List.take_succ_cons, List.countP_cons, hacf,
          if_true, Bool.false_eq_true, if_false]
        exact if_congr (by constructor <;> (rintro ⟨a, b⟩; exact ⟨a, by omega⟩)) rfl rfl

theorem limitCore_map_demote (l : List Task) (n : Nat) :
    (limitCore l n).1.map (fun t => { t with isCore := false }) =
      l.map (fun t => { t with isCore := false }) := by
  induction l generalizing n with
  | nil => rfl
  | cons t rest ih =>
    simp only [limitCore]
    split
    · split <;> simp [ih]
    · simp [ih]

theorem loadTasks_persists (st : Store) :
    (loadTasks st).2 = st ∨
      getItem (loadTasks st).2 tasksKey = some (.tasksV (loadTasks st).1) := by
  simp only [loadTasks]
  split
  · right
    exact getItem_setItem_self st tasksKey _
  · left
    rfl

/-- A stored non-core task with out-of-range points. -/
def w37Task : Task :=
  { id := "b37", title := "big", points := 37, isCore := false, isActive := true }

/-- Six stored active core tasks (one more than the cap). -/
def wSixCoreTasks : List Task :=
  [ { id := "k1", title := "k1", points := 0, isCore := true, isActive := true },
    { id := "k2", title := "k2", points := 0, isCore := true, isActive := true },
    { id := "k3", title := "k3", points := 0, isCore := true, isActive := true },
    { id := "k4", title := "k4", points := 0, isCore := true, isActive := true },
    { id := "k5", title := "k5", points := 0, isCore := true, isActive := true },
    { id := "k6", title := "k6", points := 0, isCore := true, isActive := true } ]

/-- What loading `wSixCoreTasks` yields: the first five keep `isCore`, the
sixth is demoted (keeping its zero points). -/
def wSixCoreLimited : List Task :=
  [ { id := "k1", title := "k1", points := 0, isCore := true, isActive := true },
    { id := "k2", title := "k2", points := 0, isCore := true, isActive := true },
    { id := "k3", title := "k3", points := 0, isCore := true, isActive := true },
    { id := "k4", title := "k4", points := 0, isCore := true, isActive := true },
    { id := "k5", title := "k5", points := 0, isCore := true, isActive := true },
    { id := "k6", title := "k6", points := 0, isCore := false, isActive := true } ]

theorem normTask_w37 : normTask w37Task = ({ w37Task with points := 10 }, true) := by
  have hr : jsRound w37Task.points = 37 := by
    show jsRound (37 : ℚ) = 37
    unfold jsRound
    norm_num
  unfold normTask
  rw [if_neg (fun hcontra : w37Task.isCore = true => Bool.false_ne_true hcontra)]
  dsimp only
  rw [hr]
  norm_num [w37Task]

theorem loadTasks_w37_eval :
    (loadTasks [(tasksKey, StoredVal.tasksV [w37Task])]).1
      = [{ w37Task with points := 10 }] := by
  rw [loadTasks_fst]
  have hget : parseTasks (getItem [(tasksKey, StoredVal.tasksV [w37Task])] tasksKey)
      = [w37Task] := by decide
  rw [hget, List.map_cons, List.map_nil, normTask_w37]
  decide

/-- Claim C6 (counterexample): loading six active core tasks returns a task
that is non-core with `points = 0`, outside the claimed `[1, 10]` range for
non-core tasks (the demoted sixth core task keeps its zero points). -/
theorem claim6_counterexample :
    ((loadTasks [(tasksKey, StoredVal.tasksV wSixCoreTasks)]).1.any
      (fun t => !t.isCore && decide (t.points = 0) && !decide (1 ≤ t.points))) = true := by
  decide

/-- Claim C6 (amended): `loadTasks` returns (and, when anything changed,
persists back under the tasks key) a list in which every core task has
points 0; every non-core task has points 0 (possible only for a task
demoted from core by the cap) or an integer clamped to `[1, 10]` (e.g. a
stored 37 becomes 10); at most five tasks are simultaneously active and
core; the surviving active-core tasks are exactly the first five of the
points-normalized list in original order; and an entry is demoted exactly
when it is active core and more than five active-core entries occur up to
and including its position. -/
theorem claim6_amended_normalization :
    (∀ st : Store, ∀ t ∈ (loadTasks st).1, t.isCore = true → t.points = 0) ∧
    (∀ st : Store, ∀ t ∈ (loadTasks st).1, t.isCore = false →
      t.points = 0 ∨ ∃ k : ℤ, t.points = (k : ℚ) ∧ 1 ≤ k ∧ k ≤ 10) ∧
    (∀ st : Store,
      (loadTasks st).1.countP (fun t => t.isActive && t.isCore) ≤ 5) ∧
    (∀ st : Store,
      (loadTasks st).1.filter (fun t => t.isActive && t.isCore) =
        (((parseTasks (getItem st tasksKey)).map (fun t => (normTask t).1)).filter
          (fun t => t.isActive && t.isCore)).take 5) ∧
    (∀ st : Store,
      (loadTasks st).1.map (fun t => { t with isCore := false }) =
        ((parseTasks (getItem st tasksKey)).map (fun t => (normTask t).1)).map
          (fun t => { t with isCore := false })) ∧
    (∀ (l : List Task) (n i : Nat) (h : i < l.length)
        (h2 : i < (limitCore l n).1.length),
      (limitCore l n).1[i] =
        if ((l[i]).isActive && (l[i]).isCore) = true ∧
            5 < n + (l.take (i + 1)).countP (fun t => t.isActive && t.isCore)
        then { (l[i]) with isCore := false } else l[i]) ∧
    (∀ st : Store, (loadTasks st).2 = st ∨
      getItem (loadTasks st).2 tasksKey = some (.tasksV (loadTasks st).1)) ∧
    (loadTasks [(tasksKey, StoredVal.tasksV [w37Task])]).1
      = [{ w37Task with points := 10 }] ∧
    (loadTasks [(tasksKey, StoredVal.tasksV wSixCoreTasks)]).1 = wSixCoreLimited := by
  refine ⟨?_, ?_, ?_, ?_, ?_, limitCore_get, loadTasks_persists, loadTasks_w37_eval,
    by decide⟩
  · intro st t ht hcore
    rw [loadTasks_fst] at ht
    rcases limitCore_mem _ 0 t ht with hmem | ⟨v, hv, _, rfl⟩
    · rcases List.mem_map.mp hmem with ⟨u, _, rfl⟩
      exact normTask_core_points u (by rw [← normTask_isCore]; exact hcore)
    · exact absurd hcore Bool.false_ne_true
  · intro st t ht hnc
    rw [loadTasks_fst] at ht
    rcases limitCore_mem _ 0 t ht with hmem | ⟨v, hv, ⟨hva, hvc⟩, rfl⟩
    · rcases List.mem_map.mp hmem with ⟨u, _, rfl⟩
      exact Or.inr (normTask_noncore_points u (by rw [← normTask_isCore]; exact hnc))
    · left
      rcases List.mem_map.mp hv with ⟨u, _, rfl⟩
      show ((normTask u).1).points = 0
      exact normTask_core_points u (by rw [← normTask_isCore]; exact hvc)
  · intro st
    rw [loadTasks_fst]
    simpa using limitCore_countP _ 0
  · intro st
    rw [loadTasks_fst]
    simpa using limitCore_filter _ 0
  · intro st
    rw [loadTasks_fst]
    exact limitCore_map_demote _ 0

theorem claim6_amended_normalization_witness :
    ({ id := "k1", title := "k1", points := 0, isCore := true, isActive := true }
      : Task).points = 0 :=
  claim6_amended_normalization.1 [(tasksKey, StoredVal.tasksV wSixCoreTasks)]
    { id := "k1", title := "k1", points := 0, isCore := true, isActive := true }
    (by decide) (by decide)

theorem v2Key_inj (a b : String) (h : v2Key a = v2Key b) : a = b := by
  have h2 := congrArg String.data h
  simp only [v2Key, v2Base, String.data_append] at h2
  exact String.ext (List.append_cancel_left h2)

theorem v2Key_ne_v1Key (mo : String) : v2Key mo ≠ v1Key := by
  intro h
  have h2 := congrArg String.data h
  simp [v2Key, v2Base, v1Key, String.data_append] at h2

theorem v2Key_ne_backupKey (mo : String) : v2Key mo ≠ backupKey := by
  intro h
  have h2 := congrArg String.data h
  simp [v2Key, v2Base, backupKey, String.data_append] at h2

theorem v2Key_ne_tasksKey (mo : String) : v2Key mo ≠ tasksKey := by
  intro h
  have h2 := congrArg String.data h
  simp [v2Key, v2Base, tasksKey, String.data_append] at h2

theorem alookup_eq_none_of_not_mem {β : Type} (m : List (String × β)) (k : String)
    (h : k ∉ m.map Prod.fst) : alookup m k = none := by
  induction m with
  | nil => rfl
  | cons p rest ih =>
    obtain ⟨k0, v0⟩ := p
    simp only [List.map_cons, List.mem_cons, not_or] at h
    show (if k0 = k then some v0 else alookup rest k) = none
    rw [if_neg (fun hh => h.1 hh.symm)]
    exact ih h.2

theorem mem_keys_objSet {β : Type} (m : List (String × β)) (k a : String) (v : β) :
    a ∈ (objSet m k v).map Prod.fst ↔ a ∈ m.map Prod.fst ∨ a = k := by
  induction m with
  | nil => simp [objSet]
  | cons p rest ih =>
    obtain ⟨k0, v0⟩ := p
    by_cases hp : k0 = k
    · subst hp
      have hobj : objSet ((k0, v0) :: rest) k0 v = (k0, v) :: rest := by
        simp [objSet]
      rw [hobj]
      simp only [List.map_cons, List.mem_cons]
      tauto
    · have hobj : objSet ((k0, v0) :: rest) k v = (k0, v0) :: objSet rest k v := by
        simp [objSet, hp]
      rw [hobj]
      simp only [List.map_cons, List.mem_cons, ih]
      tauto

theorem keysND_objSet {β : Type} (m : List (String × β)) (k : String) (v : β)
    (h : keysND m) : keysND (objSet m k v) := by
  induction m with
  | nil => simp [keysND, objSet]
  | cons p rest ih =>
    obtain ⟨k0, v0⟩ := p
    unfold keysND at h ⊢
    simp only [List.map_cons, List.nodup_cons] at h
    by_cases hp : k0 = k
    · subst hp
      have hobj : objSet ((k0, v0) :: rest) k0 v = (k0, v) :: rest := by
        simp [objSet]
      rw [hobj]
      simp only [List.map_cons, List.nodup_cons]
      exact h
    · have hobj : objSet ((k0, v0) :: rest) k v = (k0, v0) :: objSet rest k v := by
        simp [objSet, hp]
      rw [hobj]
      simp only [List.map_cons, List.nodup_cons]
      refine ⟨?_, ih h.2⟩
      rw [mem_keys_objSet]
      rintro (hm | rfl)
      · exact h.1 hm
      · exact hp rfl

theorem alookup_objMerge (a b : List (String × DayLog)) (d : String)
    (hb : keysND b) : alookup (objMerge a b) d = (alookup b d).or (alookup a d) := by
  induction b generalizing a with
  | nil => rfl
  | cons q b ih =>
    obtain ⟨qk, qv⟩ := q
    unfold keysND at hb
    simp only [List.map_cons, List.nodup_cons] at hb
    have hstep : objMerge a ((qk, qv) :: b) = objMerge (objSet a qk qv) b := rfl
    rw [hstep, ih (objSet a qk qv) hb.2]
    have hcons : alookup ((qk, qv) :: b) d = if qk = d then some qv else alookup b d := rfl
    rw [hcons]
    by_cases hq : qk = d
    · subst hq
      rw [if_pos rfl, alookup_objSet_self, alookup_eq_none_of_not_mem b qk hb.1]
      rfl
    · rw [if_neg hq, alookup_objSet_ne a qk d qv hq]

/-- Where a date would be found among the bucketed legacy entries: look up
the date's month bucket, then the date inside it. -/
def bucketFind (b : List (String × List (String × DayLog))) (d : String) :
    Option DayLog :=
  (alookup b (toMonthISO d)).bind (fun mm => alookup mm d)

theorem loadMonthMap_setItem_ne (st : Store) (k : String) (v : StoredVal)
    (mo : String) (h : k ≠ v2Key mo) :
    loadMonthMap (setItem st k v) mo = loadMonthMap st mo := by
  unfold loadMonthMap
  rw [getItem_setItem_ne st k _ v h]

theorem loadMonthMap_removeItem_ne (st : Store) (k : String) (mo : String)
    (h : k ≠ v2Key mo) :
    loadMonthMap (removeItem st k) mo = loadMonthMap st mo := by
  unfold loadMonthMap
  rw [getItem_removeItem_ne st k _ h]

theorem bucketIns_find (b : List (String × List (String × DayLog)))
    (p : String × DayLog) (d : String) :
    bucketFind (bucketIns b p) d = if p.1 = d then some p.2 else bucketFind b d := by
  obtain ⟨pk, pv⟩ := p
  show bucketFind (objSet b (toMonthISO pk)
      (objSet ((alookup b (toMonthISO pk)).getD []) pk pv)) d = _
  unfold bucketFind
  by_cases hmo : toMonthISO pk = toMonthISO d
  · rw [hmo, alookup_objSet_self]
    show alookup (objSet ((alookup b (toMonthISO d)).getD []) pk pv) d = _
    by_cases hpd : pk = d
    · subst hpd
      rw [alookup_objSet_self, if_pos rfl]
    · rw [alookup_objSet_ne _ pk d pv hpd, if_neg hpd]
      cases hcur : alookup b (toMonthISO d) with
      | none => rfl
      | some mm => rfl
  · have hpd : pk ≠ d := fun hh => hmo (by rw [hh])
    rw [alookup_objSet_ne b (toMonthISO pk) (toMonthISO d) _ hmo, if_neg hpd]

theorem buildBucket_aux (m : List (String × DayLog)) (d : String) :
    ∀ b, keysND m →
      bucketFind (m.foldl bucketIns b) d = (alookup m d).or (bucketFind b d) := by
  induction m with
  | nil =>
    intro b _
    rfl
  | cons p rest ih =>
    intro b hnd
    obtain ⟨pk, pv⟩ := p
    unfold keysND at hnd
    simp only [List.map_cons, List.nodup_cons] at hnd
    have hstep : ((pk, pv) :: rest).foldl bucketIns b
        = rest.foldl bucketIns (bucketIns b (pk, pv)) := rfl
    rw [hstep, ih _ hnd.2, bucketIns_find]
    have hcons : alookup ((pk, pv) :: rest) d
        = if pk = d then some pv else alookup rest d := rfl
    rw [hcons]
    by_cases hpd : pk = d
    · subst hpd
      rw [if_pos rfl, if_pos rfl, alookup_eq_none_of_not_mem rest pk hnd.1]
      rfl
    · rw [if_neg hpd, if_neg hpd]

theorem buildBucket_find (m : List (String × DayLog)) (d : String)
    (hnd : keysND m) : bucketFind (buildBucket m) d = alookup m d := by
  have h := buildBucket_aux m d [] hnd
  have hnil : bucketFind ([] : List (String × List (String × DayLog))) d = none := rfl
  rw [hnil] at h
  rw [buildBucket, h]
  cases alookup m d <;> rfl

theorem keysND_bucketIns (b : List (String × List (String × DayLog)))
    (p : String × DayLog) (h : keysND b) : keysND (bucketIns b p) := by
  obtain ⟨pk, pv⟩ := p
  exact keysND_objSet b (toMonthISO pk) _ h

theorem keysND_buildBucket (m : List (String × DayLog)) :
    keysND (buildBucket m) := by
  suffices h : ∀ b, keysND b → keysND (m.foldl bucketIns b) by
    exact h [] (by simp [keysND])
  induction m with
  | nil =>
    intro b hb
    exact hb
  | cons p rest ih =>
    intro b hb
    exact ih _ (keysND_bucketIns b p hb)

theorem writeShards_getItem_other (bucket : List (String × List (String × DayLog)))
    (k : String) (hk : ∀ mo, k ≠ v2Key mo) :
    ∀ st, getItem (writeShards st bucket) k = getItem st k := by
  induction bucket with
  | nil =>
    intro st
    rfl
  | cons p b ih =>
    intro st
    have hstep : writeShards st (p :: b)
        = writeShards (saveMonthMap st p.1 (objMerge p.2 (loadMonthMap st p.1))) b := rfl
    rw [hstep, ih _]
    unfold saveMonthMap
    exact getItem_setItem_ne _ _ _ _ (fun hh => hk p.1 hh.symm)

theorem writeShards_v2_none (bucket : List (String × List (String × DayLog)))
    (mo : String) :
    ∀ st, alookup bucket mo = none →
      getItem (writeShards st bucket) (v2Key mo) = getItem st (v2Key mo) := by
  induction bucket with
  | nil =>
    intro st _
    rfl
  | cons p b ih =>
    intro st hmo
    obtain ⟨pk, pm⟩ := p
    have hcons : alookup ((pk, pm) :: b) mo
        = if pk = mo then some pm else alookup b mo := rfl
    rw [hcons] at hmo
    by_cases hpk : pk = mo
    · rw [if_pos hpk] at hmo
      exact absurd hmo (by simp)
    · rw [if_neg hpk] at hmo
      have hstep : writeShards st ((pk, pm) :: b)
          = writeShards (saveMonthMap st pk (objMerge pm (loadMonthMap st pk))) b := rfl
      rw [hstep, ih _ hmo]
      unfold saveMonthMap
      exact getItem_setItem_ne _ _ _ _ (fun hh => hpk (v2Key_inj pk mo hh))

theorem writeShards_v2_some (bucket : List (String × List (String × DayLog)))
    (mo : String) (mm : List (String × DayLog)) :
    ∀ st, keysND bucket → alookup bucket mo = some mm →
      getItem (writeShards st bucket) (v2Key mo)
        = some (.logsV (objMerge mm (loadMonthMap st mo))) := by
  induction bucket with
  | nil =>
    intro st _ h
    exact absurd h (by simp [alookup])
  | cons p b ih =>
    intro st hnd hmo
    obtain ⟨pk, pm⟩ := p
    unfold keysND at hnd
    simp only [List.map_cons, List.nodup_cons] at hnd
    have hcons : alookup ((pk, pm) :: b) mo
        = if pk = mo then some pm else alookup b mo := rfl
    rw [hcons] at hmo
    have hstep : writeShards st ((pk, pm) :: b)
        = writeShards (saveMonthMap st pk (objMerge pm (loadMonthMap st pk))) b := rfl
    rw [hstep]
    by_cases hpk : pk = mo
    · subst hpk
      rw [if_pos rfl] at hmo
      injection hmo with hmm
      subst hmm
      rw [writeShards_v2_none b pk _ (alookup_eq_none_of_not_mem b pk hnd.1)]
      unfold saveMonthMap
      rw [getItem_setItem_self]
    · rw [if_neg hpk] at hmo
      rw [ih _ hnd.2 hmo]
      have hlm : loadMonthMap (saveMonthMap st pk (objMerge pm (loadMonthMap st pk))) mo
          = loadMonthMap st mo := by
        unfold saveMonthMap
        exact loadMonthMap_setItem_ne st (v2Key pk) _ mo
          (fun hh => hpk (v2Key_inj pk mo hh))
      rw [hlm]

theorem charsLt_asymm (a : List Char) : ∀ b, charsLt a b = true → charsLt b a = false := by
  induction a with
  | nil =>
    intro b hb
    cases b with
    | nil => exact absurd hb (by simp [charsLt])
    | cons d ds => rfl
  | cons c cs ih =>
    intro b hb
    cases b with
    | nil => exact absurd hb (by simp [charsLt])
    | cons d ds =>
      by_cases hcd : c < d
      · have hdc : ¬(d < c) := lt_asymm hcd
        simp [charsLt, hcd, hdc]
      · by_cases hdc : d < c
        · simp [charsLt, hcd, hdc] at hb
        · simp only [charsLt, if_neg hcd, if_neg hdc] at hb
          simp only [charsLt, if_neg hdc, if_neg hcd]
          exact ih ds hb

theorem charsLt_false_trans (a : List Char) :
    ∀ b c, charsLt a b = false → charsLt b c = false → charsLt a c = false := by
  induction a with
  | nil =>
    intro b c h1 h2
    cases b with
    | cons y ys => exact absurd h1 (by simp [charsLt])
    | nil =>
      cases c with
      | cons z zs => exact absurd h2 (by simp [charsLt])
      | nil => rfl
  | cons x xs ih =>
    intro b c h1 h2
    cases b with
    | nil =>
      cases c with
      | cons z zs => exact absurd h2 (by simp [charsLt])
      | nil => rfl
    | cons y ys =>
      cases c with
      | nil => rfl
      | cons z zs =>
        by_cases hxy : x < y
        · simp [charsLt, hxy] at h1
        · by_cases hyz : y < z
          · simp [charsLt, hyz] at h2
          · have hxz : ¬(x < z) := fun hlt =>
              absurd hlt (not_lt_of_le (le_trans (le_of_not_lt hyz) (le_of_not_lt hxy)))
            by_cases hzx : z < x
            · simp [charsLt, hxz, hzx]
            · by_cases hyx : y < x
              · exact absurd (lt_of_le_of_lt (le_of_not_lt hyz) hyx) hzx
              · by_cases hzy : z < y
                · exact absurd (lt_of_lt_of_le hzy (le_of_not_lt hxy)) hzx
                · simp only [charsLt, if_neg hxy, if_neg hyx] at h1
                  simp only [charsLt, if_neg hyz, if_neg hzy] at h2
                  simp only [charsLt, if_neg hxz, if_neg hzx]
                  exact ih ys zs h1 h2

theorem strLt_asymm (x y : String) (h : strLt x y = true) : strLt y x = false :=
  charsLt_asymm x.data y.data h

theorem strLt_false_trans (x y z : String) (h1 : strLt x y = false)
    (h2 : strLt y z = false) : strLt x z = false :=
  charsLt_false_trans x.data y.data z.data h1 h2

theorem mem_insertDesc (x z : String) :
    ∀ l, z ∈ insertDesc x l ↔ z = x ∨ z ∈ l := by
  intro l
  induction l with
  | nil => simp [insertDesc]
  | cons y ys ih =>
    by_cases h : strLt x y = true
    · simp only [insertDesc, if_pos h, List.mem_cons, ih]
      tauto
    · simp only [insertDesc, if_neg h, List.mem_cons]

theorem pairwise_insertDesc (x : String) :
    ∀ l : List String, l.Pairwise (fun a b => strLt a b = false) →
      (insertDesc x l).Pairwise (fun a b => strLt a b = false) := by
  intro l
  induction l with
  | nil =>
    intro _
    simp [insertDesc]
  | cons y ys ih =>
    intro h
    rw [List.pairwise_cons] at h
    by_cases hxy : strLt x y = true
    · have hres : insertDesc x (y :: ys) = y :: insertDesc x ys := by
        simp [insertDesc, hxy]
      rw [hres, List.pairwise_cons]
      refine ⟨?_, ih h.2⟩
      intro z hz
      rcases (mem_insertDesc x z ys).mp hz with hzx | hzys
      · rw [hzx]
        exact strLt_asymm x y hxy
      · exact h.1 z hzys
    · have hxyf : strLt x y = false := by
        revert hxy
        cases strLt x y <;> simp
      have hres : insertDesc x (y :: ys) = x :: y :: ys := by
        simp [insertDesc, hxy]
      rw [hres, List.pairwise_cons]
      refine ⟨?_, ?_⟩
      · intro z hz
        rcases List.mem_cons.mp hz with rfl | hzys
        · exact hxyf
        · exact strLt_false_trans x y z hxyf (h.1 z hzys)
      · rw [List.pairwise_cons]
        exact h

theorem sortDesc_pairwise (l : List String) :
    (sortDesc l).Pairwise (fun a b => strLt a b = false) := by
  induction l with
  | nil => simp [sortDesc]
  | cons x xs ih => exact pairwise_insertDesc x (sortDesc xs) ih

theorem insertDesc_perm (x : String) :
    ∀ l : List String, (insertDesc x l).Perm (x :: l) := by
  intro l
  induction l with
  | nil => exact List.Perm.refl _
  | cons y ys ih =>
    by_cases h : strLt x y = true
    · have hres : insertDesc x (y :: ys) = y :: insertDesc x ys := by
        simp [insertDesc, h]
      rw [hres]
      exact (ih.cons y).trans (List.Perm.swap x y ys)
    · have hres : insertDesc x (y :: ys) = x :: y :: ys := by
        simp [insertDesc, h]
      rw [hres]

theorem sortDesc_perm (l : List String) : (sortDesc l).Perm l := by
  induction l with
  | nil => exact List.Perm.refl _
  | cons x xs ih => exact (insertDesc_perm x (sortDesc xs)).trans (ih.cons x)

theorem migrateWork_lookup (st st1 : Store) (m : List (String × DayLog))
    (hm : keysND m) (hbk : ∀ mo, loadMonthMap st1 mo = loadMonthMap st mo)
    (d : String) (hkey : keysND (loadMonthMap st (toMonthISO d))) :
    alookup (loadMonthMap (removeItem (writeShards st1 (buildBucket m)) v1Key)
      (toMonthISO d)) d
    = (alookup (loadMonthMap st (toMonthISO d)) d).or (alookup m d) := by
  rw [loadMonthMap_removeItem_ne _ v1Key (toMonthISO d)
    (fun hh => v2Key_ne_v1Key _ hh.symm)]
  cases hbmo : alookup (buildBucket m) (toMonthISO d) with
  | none =>
    have hml : loadMonthMap (writeShards st1 (buildBucket m)) (toMonthISO d)
        = loadMonthMap st1 (toMonthISO d) := by
      unfold loadMonthMap
      rw [writeShards_v2_none (buildBucket m) (toMonthISO d) st1 hbmo]
    rw [hml, hbk]
    have hnone : alookup m d = none := by
      have hbf := buildBucket_find m d hm
      unfold bucketFind at hbf
      rw [hbmo] at hbf
      exact hbf.symm
    rw [hnone]
    cases alookup (loadMonthMap st (toMonthISO d)) d <;> rfl
  | some mm =>
    have hml : loadMonthMap (writeShards st1 (buildBucket m)) (toMonthISO d)
        = objMerge mm (loadMonthMap st1 (toMonthISO d)) := by
      unfold loadMonthMap
      rw [writeShards_v2_some (buildBucket m) (toMonthISO d) mm st1
        (keysND_buildBucket m) hbmo]
      rfl
    rw [hml, hbk]
    rw [alookup_objMerge mm (loadMonthMap st (toMonthISO d)) d hkey]
    have hmm : alookup mm d = alookup m d := by
      have hbf := buildBucket_find m d hm
      unfold bucketFind at hbf
      rw [hbmo] at hbf
      exact hbf
    rw [hmm]

/-- A legacy day log for 2024-01-15 (concrete migration scenario). -/
def wLegacyLog1 : DayLog :=
  { date := "2024-01-15", checks := [("t1", true)], note := some "a",
    excludeFromStats := none, createdAt := some 1, updatedAt := some 2 }

/-- A legacy day log for 2024-02-01 (concrete migration scenario). -/
def wLegacyLog2 : DayLog :=
  { date := "2024-02-01", checks := [], note := some "b",
    excludeFromStats := some false, createdAt := none, updatedAt := none }

/-- The parsed legacy blob of the spec's migration scenario. -/
def wLegacyMap : List (String × DayLog) :=
  [("2024-01-15", wLegacyLog1), ("2024-02-01", wLegacyLog2)]

/-- A store holding only the legacy blob (no shards, no backup). -/
def wLegacyStore : Store := [(v1Key, StoredVal.logsV wLegacyMap)]

/-- A store holding the legacy blob next to an existing (truthy) backup. -/
def wBackupStore : Store :=
  [(v1Key, StoredVal.logsV wLegacyMap), (backupKey, StoredVal.raw "old")]

/-- Claim C7: migrating a parseable legacy blob removes the legacy key,
writes the blob verbatim to the backup key only when no backup existed —
the source's `!getItem` guard, under which an absent slot and an
empty-string slot both count as "no backup" and anything else is kept —
places every legacy entry in the month shard of its date with
existing-shard entries taking precedence on collisions, and on the spec's
concrete scenario `listAvailableMonths` returns the new shards in
descending order with the backup holding the original blob. -/
theorem claim7_migration (st : Store) (m : List (String × DayLog))
    (hv1 : getItem st v1Key = some (.logsV m)) (hm : keysND m) :
    getItem (migrateStore st) v1Key = none ∧
    (jsFalsyOpt (getItem st backupKey) = true →
      getItem (migrateStore st) backupKey = some (.logsV m)) ∧
    (∀ bv, getItem st backupKey = some bv → jsFalsy bv = false →
      getItem (migrateStore st) backupKey = some bv) ∧
    (∀ d : String, keysND (loadMonthMap st (toMonthISO d)) →
      alookup (loadMonthMap (migrateStore st) (toMonthISO d)) d
        = (alookup (loadMonthMap st (toMonthISO d)) d).or (alookup m d)) ∧
    (∀ st' : Store,
      (listV2Months st').Pairwise (fun a b => strLt a b = false)) ∧
    (∀ st' : Store,
      (listV2Months st').Perm ((st'.map Prod.fst).filterMap
        (fun k => if strLeads k v2Base then some (strDropChars k v2Base.data.length)
          else none))) ∧
    ((listAvailableMonths ⟨false, wLegacyStore⟩).1 = ["2024-02", "2024-01"] ∧
      getItem (migrateStore wLegacyStore) v1Key = none ∧
      getItem (migrateStore wLegacyStore) backupKey
        = some (StoredVal.logsV wLegacyMap)) := by
  have hred : migrateStore st
      = removeItem (writeShards (if jsFalsyOpt (getItem st backupKey)
          then setItem st backupKey (StoredVal.logsV m) else st)
        (buildBucket m)) v1Key := by
    unfold migrateStore
    rw [hv1]
    rfl
  have hbk1 : ∀ mo, loadMonthMap (if jsFalsyOpt (getItem st backupKey)
      then setItem st backupKey (StoredVal.logsV m) else st) mo
      = loadMonthMap st mo := by
    intro mo
    split
    · exact loadMonthMap_setItem_ne st backupKey _ mo
        (fun hh => v2Key_ne_backupKey mo hh.symm)
    · rfl
  refine ⟨?_, ?_, ?_, ?_, fun st' => sortDesc_pairwise _, fun st' => sortDesc_perm _,
    by decide, by decide, by decide⟩
  · rw [hred]
    exact getItem_removeItem_self _ v1Key
  · intro hb
    rw [hred, getItem_removeItem_ne _ v1Key backupKey (by decide),
      writeShards_getItem_other (buildBucket m) backupKey
        (fun mo hh => v2Key_ne_backupKey mo hh.symm) _]
    rw [if_pos hb]
    exact getItem_setItem_self st backupKey _
  · intro bv hb hbf
    rw [hred, getItem_removeItem_ne _ v1Key backupKey (by decide),
      writeShards_getItem_other (buildBucket m) backupKey
        (fun mo hh => v2Key_ne_backupKey mo hh.symm) _]
    have hguard : jsFalsyOpt (getItem st backupKey) = false := by
      rw [hb]
      exact hbf
    rw [if_neg (by rw [hguard]; exact Bool.false_ne_true)]
    exact hb
  · intro d hkey
    rw [hred]
    exact migrateWork_lookup st _ m hm hbk1 d hkey

theorem claim7_migration_witness :
    getItem (migrateStore wLegacyStore) v1Key = none ∧
    getItem (migrateStore wLegacyStore) backupKey
      = some (StoredVal.logsV wLegacyMap) ∧
    getItem (migrateStore wBackupStore) backupKey = some (StoredVal.raw "old") ∧
    alookup (loadMonthMap (migrateStore wLegacyStore) (toMonthISO "2024-01-15"))
        "2024-01-15"
      = (alookup (loadMonthMap wLegacyStore (toMonthISO "2024-01-15"))
          "2024-01-15").or (alookup wLegacyMap "2024-01-15") :=
  ⟨(claim7_migration wLegacyStore wLegacyMap (by decide)
      (by unfold keysND; decide)).1,
   (claim7_migration wLegacyStore wLegacyMap (by decide)
      (by unfold keysND; decide)).2.1 (by decide),
   (claim7_migration wBackupStore wLegacyMap (by decide)
      (by unfold keysND; decide)).2.2.1 (StoredVal.raw "old") (by decide) (by decide),
   (claim7_migration wLegacyStore wLegacyMap (by decide)
      (by unfold keysND; decide)).2.2.2.1
     "2024-01-15" (by unfold keysND; decide)⟩

end ToDoScore
